import Mathlib

/-!
Verification of the long-audio segmentation-and-batching pipeline of the
sherpa-onnx R binding.

The embedding below is a shallow model of the two implementations of the
segment batcher found in the repository:

* `batch_segments` in `R/recognizer.R` (segments carry `samples`,
  `start_time`, `duration`; the maximum batch duration is a parameter,
  default 29.0), and
* the batching loop of `transcribe_with_vad_` in `src/vad.cpp`
  (segments carry `samples`, `start_sample`, `num_samples`; durations are
  derived as `num_samples / sample_rate` and the maximum is the compile-time
  constant `MAX_BATCH_DURATION = 29.0f`).

Real-number arithmetic (R doubles / C++ floats) is modelled exactly with `ℚ`;
every quantity the claims mention (10.0, 15.0, 29.0, 0.0001, ...) is handled
identically by exact rationals and by the machine arithmetic of the source at
the comparisons the claims exercise.

Both sources run the same two nested loops: the outer loop starts a new batch
anchored at the cursor segment; the inner loop's first iteration always
accepts the cursor segment (the guard `length(batch_samples) > 0 && ...` is
false for a fresh batch), and each later iteration accepts the candidate
unless adding its duration would push the running total strictly over the
maximum.  The embedding linearises the two loops into a single structural
recursion `go` whose accumulator `cur` is the batch under construction
*after* that always-taken first acceptance; this is exactly the loop state of
the source at the top of the second inner iteration.  Batches additionally
record the list of member segments consumed into them (`members`), which the
source represents implicitly by the order in which `seg_idx` advances; the
`samples` and `duration` fields are accumulated exactly as in the source.
-/

/-- A speech segment as handed to `batch_segments` in `R/recognizer.R`:
the audio payload, the absolute start time in seconds and the duration in
seconds (fields `samples`, `start_time`, `duration` of the R segment list). -/
structure Seg where
  samples : List ℚ
  start_time : ℚ
  duration : ℚ
deriving DecidableEq

/-- A batch produced by `batch_segments`: concatenated payload `samples`,
the anchoring `start_time` (copied from the segment the batch was opened at),
the accumulated `duration`, plus the instrumented list of member segments
consumed into the batch (implicit in the source's cursor movement). -/
structure Batch where
  samples : List ℚ
  start_time : ℚ
  duration : ℚ
  members : List Seg
deriving DecidableEq

/-- The batch state right after the always-accepted first inner-loop
iteration of `batch_segments`: the fresh batch is anchored at `s` and already
contains `s`. -/
def startBatch (s : Seg) : Batch :=
  ⟨s.samples, s.start_time, s.duration, [s]⟩

/-- The fused batching loops of `batch_segments` (`R/recognizer.R`, lines
15-40).  `cur` is the batch under construction; a candidate is rejected,
closing `cur` and opening a new batch at the candidate, exactly when
`length(batch_samples) > 0 && (batch_duration + seg$duration) > max_duration`
holds; otherwise its samples are appended, its duration added, and the cursor
advances. -/
def go (max : ℚ) (cur : Batch) : List Seg → List Batch
  | [] => [cur]
  | seg :: rest =>
    if 0 < cur.samples.length ∧ max < cur.duration + seg.duration then
      cur :: go max (startBatch seg) rest
    else
      go max ⟨cur.samples ++ seg.samples, cur.start_time,
              cur.duration + seg.duration, cur.members ++ [seg]⟩ rest

/-- `batch_segments` from `R/recognizer.R` (lines 6-43): an empty segment
list yields an empty batch list; otherwise the outer loop opens a batch at
the cursor segment (which the first inner iteration always accepts) and
`go` runs the rest of the two nested loops. -/
def batch_segments (max : ℚ) : List Seg → List Batch
  | [] => []
  | seg :: rest => go max (startBatch seg) rest

/-- A VAD segment as collected by `transcribe_with_vad_` in `src/vad.cpp`
(struct `VadSegment`): payload, absolute start sample index, sample count. -/
structure VadSegment where
  samples : List ℚ
  start_sample : ℤ
  num_samples : ℕ
deriving DecidableEq

/-- A batch of the C++ batching loop: concatenated samples, the anchoring
`batch_start_sample`, the accumulated `batch_duration` (seconds), plus the
instrumented member list. -/
structure CppBatch where
  samples : List ℚ
  start_sample : ℤ
  duration : ℚ
  members : List VadSegment
deriving DecidableEq

/-- `seg_duration` of `src/vad.cpp` line 139:
`seg.num_samples / static_cast<float>(sample_rate)`. -/
def segDur (rate : ℚ) (v : VadSegment) : ℚ :=
  (v.num_samples : ℚ) / rate

/-- The C++ batch state after the always-accepted first inner iteration. -/
def cppStartBatch (rate : ℚ) (v : VadSegment) : CppBatch :=
  ⟨v.samples, v.start_sample, segDur rate v, [v]⟩

/-- The fused batching loops of `transcribe_with_vad_` (`src/vad.cpp`,
lines 130-151): rejection happens exactly on
`!batch_samples.empty() && (batch_duration + seg_duration) > MAX_BATCH_DURATION`
with `MAX_BATCH_DURATION = 29.0f`. -/
def cppGo (rate : ℚ) (cur : CppBatch) : List VadSegment → List CppBatch
  | [] => [cur]
  | v :: rest =>
    if 0 < cur.samples.length ∧ 29 < cur.duration + segDur rate v then
      cur :: cppGo rate (cppStartBatch rate v) rest
    else
      cppGo rate ⟨cur.samples ++ v.samples, cur.start_sample,
                  cur.duration + segDur rate v, cur.members ++ [v]⟩ rest

/-- The whole C++ batching pass (`src/vad.cpp`, lines 126-151), producing
the batch list in order. -/
def cppBatchLoop (rate : ℚ) : List VadSegment → List CppBatch
  | [] => []
  | v :: rest => cppGo rate (cppStartBatch rate v) rest

/-- Running `go` distributes the pending segment list over the emitted
batches: the concatenation of all member lists is the current batch's
members followed by the remaining segments. -/
lemma go_flatten (max : ℚ) :
    ∀ (l : List Seg) (cur : Batch),
      ((go max cur l).map Batch.members).flatten = cur.members ++ l := by
  intro l
  induction l with
  | nil => intro cur; simp [go]
  | cons seg rest ih =>
    intro cur
    by_cases h : 0 < cur.samples.length ∧ max < cur.duration + seg.duration
    · simp [go, h, ih, startBatch]
    · simp [go, h, ih]

/-- C++ counterpart of `go_flatten`. -/
lemma cppGo_flatten (rate : ℚ) :
    ∀ (l : List VadSegment) (cur : CppBatch),
      ((cppGo rate cur l).map CppBatch.members).flatten = cur.members ++ l := by
  intro l
  induction l with
  | nil => intro cur; simp [cppGo]
  | cons v rest ih =>
    intro cur
    by_cases h : 0 < cur.samples.length ∧ 29 < cur.duration + segDur rate v
    · simp [cppGo, h, ih, cppStartBatch]
    · simp [cppGo, h, ih]

/-- Claim C1.  For every segment sequence and every maximum duration,
concatenating the member segments of all batches produced by the batcher, in
batch order then member order, reproduces the original segment sequence
exactly — no segment is dropped, reordered, duplicated, or split.  This holds
both for `batch_segments` (`R/recognizer.R`) and for the batching loop of
`transcribe_with_vad_` (`src/vad.cpp`). -/
theorem batcher_preserves_segment_sequence :
    (∀ (max : ℚ) (segs : List Seg),
        ((batch_segments max segs).map Batch.members).flatten = segs)
    ∧ (∀ (rate : ℚ) (vs : List VadSegment),
        ((cppBatchLoop rate vs).map CppBatch.members).flatten = vs) := by
  constructor
  · intro max segs
    cases segs with
    | nil => simp [batch_segments]
    | cons seg rest => simp [batch_segments, go_flatten, startBatch]
  · intro rate vs
    cases vs with
    | nil => simp [cppBatchLoop]
    | cons v rest => simp [cppBatchLoop, cppGo_flatten, cppStartBatch]

/-- Every batch emitted by `go` has a nonempty member list whose head's
`start_time` is the batch's `start_time`, provided the batch under
construction already has that shape (it always does: it was opened via
`startBatch`). -/
lemma go_anchored (max : ℚ) :
    ∀ (l : List Seg) (cur : Batch),
      (∃ m t, cur.members = m :: t ∧ cur.start_time = m.start_time) →
      ∀ b ∈ go max cur l,
        ∃ m t, b.members = m :: t ∧ b.start_time = m.start_time := by
  intro l
  induction l with
  | nil =>
    intro cur hcur b hb
    simp [go] at hb
    exact hb ▸ hcur
  | cons seg rest ih =>
    intro cur hcur b hb
    by_cases h : 0 < cur.samples.length ∧ max < cur.duration + seg.duration
    · simp only [go, if_pos h, List.mem_cons] at hb
      rcases hb with rfl | hb
      · exact hcur
      · exact ih (startBatch seg) ⟨seg, [], rfl, rfl⟩ b hb
    · simp only [go, if_neg h] at hb
      rcases hcur with ⟨m, t, hm, hs⟩
      exact ih ⟨cur.samples ++ seg.samples, cur.start_time,
        cur.duration + seg.duration, cur.members ++ [seg]⟩
        ⟨m, t ++ [seg], by simp [hm], hs⟩ b hb

/-- C++ counterpart of `go_anchored`: the anchoring field is
`batch_start_sample`. -/
lemma cppGo_anchored (rate : ℚ) :
    ∀ (l : List VadSegment) (cur : CppBatch),
      (∃ m t, cur.members = m :: t ∧ cur.start_sample = m.start_sample) →
      ∀ b ∈ cppGo rate cur l,
        ∃ m t, b.members = m :: t ∧ b.start_sample = m.start_sample := by
  intro l
  induction l with
  | nil =>
    intro cur hcur b hb
    simp [cppGo] at hb
    exact hb ▸ hcur
  | cons v rest ih =>
    intro cur hcur b hb
    by_cases h : 0 < cur.samples.length ∧ 29 < cur.duration + segDur rate v
    · simp only [cppGo, if_pos h, List.mem_cons] at hb
      rcases hb with rfl | hb
      · exact hcur
      · exact ih (cppStartBatch rate v) ⟨v, [], rfl, rfl⟩ b hb
    · simp only [cppGo, if_neg h] at hb
      rcases hcur with ⟨m, t, hm, hs⟩
      exact ih ⟨cur.samples ++ v.samples, cur.start_sample,
        cur.duration + segDur rate v, cur.members ++ [v]⟩
        ⟨m, t ++ [v], by simp [hm], hs⟩ b hb

/-- Every batch produced by `batch_segments` has a nonempty member list. -/
lemma batch_segments_members_ne_nil (max : ℚ) (segs : List Seg) :
    ∀ b ∈ batch_segments max segs, b.members ≠ [] := by
  intro b hb
  cases segs with
  | nil => simp [batch_segments] at hb
  | cons seg rest =>
    have := go_anchored max rest (startBatch seg) ⟨seg, [], rfl, rfl⟩ b hb
    rcases this with ⟨m, t, hm, _⟩
    simp [hm]

/-- A batch list whose members are all nonempty is no longer than the
concatenation of its member lists. -/
lemma length_le_flatten_length :
    ∀ (bs : List Batch), (∀ b ∈ bs, b.members ≠ []) →
      bs.length ≤ ((bs.map Batch.members).flatten).length := by
  intro bs
  induction bs with
  | nil => intro _; simp
  | cons b bs ih =>
    intro h
    have hb : b.members ≠ [] := h b (List.mem_cons_self b bs)
    have hlen : 1 ≤ b.members.length := by
      cases hm : b.members with
      | nil => exact absurd hm hb
      | cons x xs => simp
    have := ih (fun c hc => h c (List.mem_cons_of_mem b hc))
    simp only [List.map_cons, List.flatten_cons, List.length_append,
      List.length_cons]
    omega

/-- Flattening the member lists of `batch_segments` output gives back the
input segment list. -/
lemma batch_segments_flatten (max : ℚ) (segs : List Seg) :
    ((batch_segments max segs).map Batch.members).flatten = segs := by
  cases segs with
  | nil => simp [batch_segments]
  | cons seg rest => simp [batch_segments, go_flatten, startBatch]

/-- The head batch that `go` eventually emits extends the batch currently
under construction: its member list is `cur.members` plus whatever further
segments were accepted. -/
lemma go_head_prefix (max : ℚ) :
    ∀ (l : List Seg) (cur : Batch),
      ∃ b bs t, go max cur l = b :: bs ∧ b.members = cur.members ++ t := by
  intro l
  induction l with
  | nil => intro cur; exact ⟨cur, [], [], rfl, by simp⟩
  | cons seg rest ih =>
    intro cur
    by_cases h : 0 < cur.samples.length ∧ max < cur.duration + seg.duration
    · exact ⟨cur, go max (startBatch seg) rest, [], by simp [go, h], by simp⟩
    · obtain ⟨b, bs, t, hgo, hmem⟩ :=
        ih ⟨cur.samples ++ seg.samples, cur.start_time,
            cur.duration + seg.duration, cur.members ++ [seg]⟩
      exact ⟨b, bs, seg :: t, by simp [go, h, hgo], by simp [hmem]⟩

/-- First segment of the concrete batching scenario of §8: start 0.0 s,
duration 10.0 s (payload chosen as two samples). -/
def c2s0 : Seg := ⟨[1, 2], 0, 10⟩

/-- Second segment of the concrete batching scenario: start 10.0 s,
duration 10.0 s. -/
def c2s1 : Seg := ⟨[3], 10, 10⟩

/-- Third segment of the concrete batching scenario: start 20.0 s,
duration 15.0 s. -/
def c2s2 : Seg := ⟨[4, 5], 20, 15⟩

/-- Claim C2.  On segments `[(start 0, dur 10), (start 10, dur 10),
(start 20, dur 15)]` with `max_batch_duration_sec = 29`, `batch_segments`
returns exactly two batches: the first with start time 0, duration 20 and
members seg0 and seg1 (their payloads concatenated), the second with start
time 20, duration 15 and member seg2 — the greedy single-pass accumulation
rejects seg2 (20 + 15 > 29) and opens a new batch at it. -/
theorem concrete_batching_scenario :
    batch_segments 29 [c2s0, c2s1, c2s2] =
      [⟨[1, 2, 3], 0, 20, [c2s0, c2s1]⟩, ⟨[4, 5], 20, 15, [c2s2]⟩] := by
  norm_num [batch_segments, go, startBatch, c2s0, c2s1, c2s2]

/-- Claim C3.  A single segment whose duration exceeds the maximum still
yields exactly one batch containing that segment, in both implementations
(the first candidate of a fresh batch is accepted unconditionally), and the
batching loop always makes forward progress: it terminates on every finite
segment list (the embedding is a total structural recursion) producing at
most one batch per input segment. -/
theorem single_oversized_segment_one_batch (max : ℚ) (s : Seg)
    (h : max < s.duration) (rate : ℚ) (v : VadSegment)
    (hv : 29 < segDur rate v) :
    batch_segments max [s] = [⟨s.samples, s.start_time, s.duration, [s]⟩]
    ∧ cppBatchLoop rate [v] = [⟨v.samples, v.start_sample, segDur rate v, [v]⟩]
    ∧ ∀ (d : ℚ) (segs : List Seg),
        (batch_segments d segs).length ≤ segs.length := by
  refine ⟨rfl, rfl, ?_⟩
  intro d segs
  have h1 := batch_segments_members_ne_nil d segs
  have h2 := length_le_flatten_length (batch_segments d segs) h1
  rwa [batch_segments_flatten] at h2

/-- Witness for `single_oversized_segment_one_batch` at a concrete oversized
segment (duration 40 > 29) and a concrete oversized VAD segment
(40 samples at rate 1). -/
theorem single_oversized_segment_one_batch_witness :
    batch_segments 29 [⟨[7], 0, 40⟩] = [⟨[7], 0, 40, [⟨[7], 0, 40⟩]⟩]
    ∧ cppBatchLoop 1 [⟨[7], 0, 40⟩] =
        [⟨[7], 0, 40, [⟨[7], 0, 40⟩]⟩]
    ∧ ∀ (d : ℚ) (segs : List Seg),
        (batch_segments d segs).length ≤ segs.length := by
  have h := single_oversized_segment_one_batch 29 ⟨[7], 0, 40⟩ (by norm_num)
    1 ⟨[7], 0, 40⟩ (by norm_num [segDur])
  simpa [segDur] using h

/-- First segment of the boundary-equality scenario of §8: duration exactly
29.0 s. -/
def c4s1 : Seg := ⟨[1], 0, 29⟩

/-- Second segment of the boundary-equality scenario: start 29.0 s, duration
0.0001 s = 1/10000 s. -/
def c4s2 : Seg := ⟨[2], 29, 1/10000⟩

/-- Claim C4.  A candidate considered for a batch that already holds at
least one segment (the code's own test: `batch_samples` is nonempty) is
rejected — the batch under construction is emitted unchanged and the
candidate opens the next batch — if and only if adding its duration would
make the cumulative duration strictly greater than the maximum; and on the
boundary-equality scenario `[(start 0, dur 29), (start 29, dur 0.0001)]`
with maximum 29, the first candidate is accepted (batch duration exactly
29), the second is rejected, so exactly two batches result. -/
theorem candidate_rejected_iff_strictly_over (max : ℚ) (cur : Batch)
    (seg : Seg) (rest : List Seg) (h : cur.samples ≠ []) :
    ((go max cur (seg :: rest)).head? = some cur ↔
      max < cur.duration + seg.duration)
    ∧ batch_segments 29 [c4s1, c4s2] =
        [⟨[1], 0, 29, [c4s1]⟩, ⟨[2], 29, 1/10000, [c4s2]⟩] := by
  have hlen : 0 < cur.samples.length := List.length_pos.mpr h
  constructor
  · constructor
    · intro hhead
      by_contra hnot
      have hcond : ¬(0 < cur.samples.length ∧ max < cur.duration + seg.duration) :=
        fun hc => hnot hc.2
      obtain ⟨b, bs, t, hgo, hmem⟩ := go_head_prefix max rest
        ⟨cur.samples ++ seg.samples, cur.start_time,
         cur.duration + seg.duration, cur.members ++ [seg]⟩
      have hstep : go max cur (seg :: rest) = b :: bs := by
        simp only [go, if_neg hcond]
        exact hgo
      rw [hstep] at hhead
      simp only [List.head?_cons, Option.some.injEq] at hhead
      have : cur.members = (cur.members ++ [seg]) ++ t := by
        rw [← hmem, hhead]
      have hlen2 := congrArg List.length this
      simp only [List.length_append, List.length_cons, List.length_nil] at hlen2
      omega
    · intro hlt
      have hcond : 0 < cur.samples.length ∧ max < cur.duration + seg.duration :=
        ⟨hlen, hlt⟩
      simp [go, hcond]
  · norm_num [batch_segments, go, startBatch, c4s1, c4s2]

/-- Witness for `candidate_rejected_iff_strictly_over`: with the current
batch holding the 29-second segment, the 0.0001-second candidate is indeed
rejected (29 + 1/10000 > 29). -/
theorem candidate_rejected_iff_strictly_over_witness :
    ((go 29 (startBatch c4s1) [c4s2]).head? = some (startBatch c4s1) ↔
      (29 : ℚ) < (startBatch c4s1).duration + c4s2.duration)
    ∧ batch_segments 29 [c4s1, c4s2] =
        [⟨[1], 0, 29, [c4s1]⟩, ⟨[2], 29, 1/10000, [c4s2]⟩] :=
  candidate_rejected_iff_strictly_over 29 (startBatch c4s1) c4s2 []
    (by simp [startBatch, c4s1])

/-- Claim C5.  Every batch produced by the batcher has at least one member
segment, and the batch's start time is copied from its first member: for
`batch_segments` the batch `start_time` equals the first member's
`start_time`; for the C++ loop the batch `start_sample` (from which the
reported `start_time_sec = start_sample / sample_rate` is derived) equals
the first member's `start_sample`.  It is never recomputed from the batch's
own position in the output. -/
theorem batch_start_time_from_first_member :
    (∀ (max : ℚ) (segs : List Seg), ∀ b ∈ batch_segments max segs,
        ∃ m t, b.members = m :: t ∧ b.start_time = m.start_time)
    ∧ (∀ (rate : ℚ) (vs : List VadSegment), ∀ b ∈ cppBatchLoop rate vs,
        ∃ m t, b.members = m :: t ∧ b.start_sample = m.start_sample) := by
  constructor
  · intro max segs b hb
    cases segs with
    | nil => simp [batch_segments] at hb
    | cons seg rest =>
      exact go_anchored max rest (startBatch seg) ⟨seg, [], rfl, rfl⟩ b hb
  · intro rate vs b hb
    cases vs with
    | nil => simp [cppBatchLoop] at hb
    | cons v rest =>
      exact cppGo_anchored rate rest (cppStartBatch rate v) ⟨v, [], rfl, rfl⟩ b hb

/-- Witness for `batch_start_time_from_first_member` on the concrete
scenario of claim C2 (first produced batch) and its C++ analogue. -/
theorem batch_start_time_from_first_member_witness :
    (∃ m t, (Batch.mk [1, 2, 3] 0 20 [c2s0, c2s1]).members = m :: t ∧
        (Batch.mk [1, 2, 3] 0 20 [c2s0, c2s1]).start_time = m.start_time)
    ∧ (∃ m t, (CppBatch.mk [7] 3 40 [⟨[7], 3, 40⟩]).members = m :: t ∧
        (CppBatch.mk [7] 3 40 [⟨[7], 3, 40⟩]).start_sample = m.start_sample) := by
  constructor
  · exact batch_start_time_from_first_member.1 29 [c2s0, c2s1, c2s2]
      ⟨[1, 2, 3], 0, 20, [c2s0, c2s1]⟩
      (by norm_num [batch_segments, go, startBatch, c2s0, c2s1, c2s2])
  · exact batch_start_time_from_first_member.2 1 [⟨[7], 3, 40⟩]
      ⟨[7], 3, 40, [⟨[7], 3, 40⟩]⟩
      (by norm_num [cppBatchLoop, cppGo, cppStartBatch, segDur])

/-- The whitespace class of R's `trimws` default (`[ \t\r\n]`). -/
def isWsChar (c : Char) : Bool :=
  c == ' ' || c == '\t' || c == '\r' || c == '\n'

/-- R's `trimws(x)`: strip leading and trailing whitespace.  Texts are
modelled as character lists. -/
def trimws (s : List Char) : List Char :=
  ((s.dropWhile isWsChar).reverse.dropWhile isWsChar).reverse

/-- The R-level transcript assembly of `transcribe_with_vad`
(`R/recognizer.R`, lines 127-129):
`non_empty <- nzchar(trimws(segment_texts))` keeps exactly the texts whose
trimmed form is nonempty, `paste(..., collapse = " ")` joins the kept raw
texts with a single ASCII space, and the outer `trimws` trims the joined
string.  This is also, word for word, the assembly procedure the claim
describes. -/
def combineTexts (texts : List (List Char)) : List Char :=
  trimws (List.intercalate [' ']
    (texts.filter (fun t => !(trimws t).isEmpty)))

/-- The C++ assembly loop of `transcribe_with_vad_` (`src/vad.cpp`, lines
184-197), with `full` the accumulated `full_text`: exactly-empty texts are
skipped (`seg_text.empty()`), a single space is inserted before a kept text
whenever `full_text` is already nonempty, and no trimming happens
anywhere. -/
def cppFullTextGo (full : List Char) : List (List Char) → List Char
  | [] => full
  | t :: ts =>
    if t.isEmpty then cppFullTextGo full ts
    else if full.isEmpty then cppFullTextGo t ts
    else cppFullTextGo (full ++ ' ' :: t) ts

/-- The assembled `full_text` of the C++ path, starting from the empty
string. -/
def cppFullText (texts : List (List Char)) : List Char :=
  cppFullTextGo [] texts

/-- Counterexample to claim C6 as stated: the claim asserts that the
assembled `full_text` (also at its cited site `src/vad.cpp` lines 184-197)
skips every entry whose trimmed text is empty and trims the final joined
string; but on batch texts `[" ", "hello"]` the C++ assembler keeps the
whitespace-only text and inserts a separator, producing `"  hello"`, while
the claimed procedure (the R assembly `combineTexts`) produces `"hello"`. -/
theorem cpp_full_text_keeps_whitespace_only :
    cppFullText [" ".toList, "hello".toList] = "  hello".toList
    ∧ combineTexts [" ".toList, "hello".toList] = "hello".toList
    ∧ cppFullText [" ".toList, "hello".toList] ≠
        combineTexts [" ".toList, "hello".toList] := by
  refine ⟨?_, ?_, ?_⟩ <;> decide

/-- Claim C6, amended.  The R-level assembly (`transcribe_with_vad`,
`R/recognizer.R` lines 127-129) behaves exactly as the claim describes:
a whitespace-only (trimmed-empty) batch text inserted anywhere contributes
nothing to the joined text and no extra separator, the remaining raw texts
are joined with a single ASCII space and the final string is trimmed, and
on batch texts `["hello", "", "world"]` the result is exactly
`"hello world"` — on that particular input the C++ assembler of
`transcribe_with_vad_` agrees, since it skips exactly-empty texts. -/
theorem full_text_assembly_skips_empty :
    (∀ (l1 l2 : List (List Char)) (w : List Char), trimws w = [] →
        combineTexts (l1 ++ w :: l2) = combineTexts (l1 ++ l2))
    ∧ combineTexts ["hello".toList, "".toList, "world".toList] =
        "hello world".toList
    ∧ cppFullText ["hello".toList, "".toList, "world".toList] =
        "hello world".toList := by
  refine ⟨?_, by decide, by decide⟩
  intro l1 l2 w hw
  have hpred : (fun t => !(trimws t).isEmpty) w = false := by
    simp [hw]
  simp [combineTexts, List.filter_append, List.filter_cons, hpred]

/-- Witness for `full_text_assembly_skips_empty`: inserting the
whitespace-only text `" "` between `"hello"` and `"world"` leaves the
assembled text unchanged. -/
theorem full_text_assembly_skips_empty_witness :
    combineTexts (["hello".toList] ++ " ".toList :: ["world".toList]) =
      combineTexts (["hello".toList] ++ ["world".toList])
    ∧ combineTexts ["hello".toList, "".toList, "world".toList] =
        "hello world".toList :=
  ⟨(full_text_assembly_skips_empty.1 ["hello".toList] ["world".toList]
      " ".toList (by decide)),
   full_text_assembly_skips_empty.2.1⟩

/-- The error taxonomy entry the spec assigns to out-of-range segmentation
parameters. -/
inductive ConfigError
  | invalidConfig
deriving DecidableEq

/-- `batch_segments` with its failure behaviour made explicit: the R source
(`R/recognizer.R`, lines 6-43) contains no `stop()` call and no validation
of `max_duration`, so the function succeeds on every input — the `Except`
wrapper records that no error path exists in the code. -/
def batch_segmentsE (max : ℚ) (segs : List Seg) :
    Except ConfigError (List Batch) :=
  Except.ok (batch_segments max segs)

/-- The batcher's failure behaviour as the claim describes it: fail fast
with `InvalidConfigError` whenever `max_duration ≤ 0`, before any batching
begins, and behave like the batcher otherwise. -/
def claimBatcherE (max : ℚ) (segs : List Seg) :
    Except ConfigError (List Batch) :=
  if max ≤ 0 then Except.error ConfigError.invalidConfig
  else Except.ok (batch_segments max segs)

/-- Counterexample to claim C7 as stated: at `max_duration = -1 ≤ 0` the
code does not raise — `batch_segments` happily batches the segment — while
the claimed behaviour is an `InvalidConfigError`. -/
theorem batcher_no_error_on_nonpositive_max :
    batch_segmentsE (-1) [⟨[1], 0, 10⟩] =
      Except.ok [⟨[1], 0, 10, [⟨[1], 0, 10⟩]⟩]
    ∧ claimBatcherE (-1) [⟨[1], 0, 10⟩] =
        Except.error ConfigError.invalidConfig
    ∧ batch_segmentsE (-1) [⟨[1], 0, 10⟩] ≠
        claimBatcherE (-1) [⟨[1], 0, 10⟩] := by
  refine ⟨rfl, ?_, ?_⟩
  · norm_num [claimBatcherE]
  · intro hc
    simp only [claimBatcherE, if_pos (by norm_num : (-1 : ℚ) ≤ 0),
      batch_segmentsE] at hc
    exact Except.noConfusion hc

/-- Claim C7, amended.  `batch_segments` performs no validation of
`max_duration` and never raises: for every input, including non-positive
maxima, it totally computes a batch list that still covers exactly the
input segments (in the C++ path the maximum is the fixed positive
compile-time constant `MAX_BATCH_DURATION = 29.0f`, so a non-positive
maximum cannot even arise there). -/
theorem batcher_total_never_raises :
    ∀ (max : ℚ) (segs : List Seg),
      batch_segmentsE max segs = Except.ok (batch_segments max segs)
      ∧ ((batch_segments max segs).map Batch.members).flatten = segs := by
  intro max segs
  exact ⟨rfl, batch_segments_flatten max segs⟩

/-- The two terminal branches of the per-request decision in
`OfflineRecognizer$transcribe` (`R/recognizer.R`, lines 289-335). -/
inductive TranscribeBranch
  | direct
  | segmented
deriving DecidableEq

/-- The `use_vad` computation of `transcribe` (`R/recognizer.R`, lines
301-316): only for a `"whisper"` model is the waveform read and its
duration `num_samples / sample_rate` compared against 29.0; every other
model type leaves `use_vad = FALSE` without reading the audio. -/
def use_vad (model_type : List Char) (num_samples sample_rate : ℕ) : Bool :=
  if model_type = "whisper".toList then
    decide ((29 : ℚ) < (num_samples : ℚ) / (sample_rate : ℚ))
  else
    false

/-- The one-shot branch of `transcribe` (`R/recognizer.R`, lines 318-334):
when `use_vad` is false the recognizer is called once on the whole file
(`transcribe_wav_`), otherwise the VAD segmentation pipeline
(`transcribe_with_vad`) runs. -/
def transcribeBranch (model_type : List Char)
    (num_samples sample_rate : ℕ) : TranscribeBranch :=
  if use_vad model_type num_samples sample_rate then
    TranscribeBranch.segmented
  else
    TranscribeBranch.direct

/-- The fixed context window the source's own documentation assigns to
Whisper models ("Whisper models have a 30-second context window limit",
`R/recognizer.R`; "Whisper truncates at 30s", `src/vad.cpp`). -/
def whisperContextWindowSec : ℚ := 30

/-- The decision as claim C8 states it: segment exactly when the waveform
duration exceeds the recognizer's fixed context window (which in this
codebase only Whisper models have) or the caller explicitly requests
segmentation — `transcribe` exposes no such request parameter, so that
disjunct is never available and is modelled as absent. -/
def claimBranch (model_type : List Char)
    (num_samples sample_rate : ℕ) : TranscribeBranch :=
  if model_type = "whisper".toList ∧
      whisperContextWindowSec < (num_samples : ℚ) / (sample_rate : ℚ) then
    TranscribeBranch.segmented
  else
    TranscribeBranch.direct

/-- Counterexample to claim C8 as stated: a 29.5-second waveform (472000
samples at 16 kHz) under a Whisper model does not exceed the 30-second
context window, and no explicit segmentation was requested, yet the code
runs the segmentation pipeline — `transcribe` gates on `duration > 29.0`
(the safety-margin batch limit), not on the context window. -/
theorem transcribe_branch_gate_mismatch :
    transcribeBranch "whisper".toList 472000 16000 =
      TranscribeBranch.segmented
    ∧ claimBranch "whisper".toList 472000 16000 = TranscribeBranch.direct
    ∧ transcribeBranch "whisper".toList 472000 16000 ≠
        claimBranch "whisper".toList 472000 16000 := by
  have hdur : ((472000 : ℕ) : ℚ) / ((16000 : ℕ) : ℚ) = 59 / 2 := by norm_num
  have h1 : transcribeBranch "whisper".toList 472000 16000 =
      TranscribeBranch.segmented := by
    simp only [transcribeBranch, use_vad, if_pos rfl, hdur]
    norm_num
  have h2 : claimBranch "whisper".toList 472000 16000 =
      TranscribeBranch.direct := by
    simp only [claimBranch, hdur, whisperContextWindowSec]
    norm_num
  exact ⟨h1, h2, by rw [h1, h2]; exact fun hc => TranscribeBranch.noConfusion hc⟩

/-- Claim C8, amended.  The segmentation pipeline runs if and only if the
model type is `"whisper"` and the waveform duration strictly exceeds
29.0 seconds (the safety-margin batch limit, slightly below the 30-second
context window); `transcribe` has no parameter for explicitly requesting
segmentation, and the decision is a single one-shot branch — every other
request calls the recognizer once directly on the whole waveform. -/
theorem transcribe_branch_iff :
    ∀ (model_type : List Char) (num_samples sample_rate : ℕ),
      transcribeBranch model_type num_samples sample_rate =
        TranscribeBranch.segmented ↔
      (model_type = "whisper".toList ∧
        (29 : ℚ) < (num_samples : ℚ) / (sample_rate : ℚ)) := by
  intro model_type num_samples sample_rate
  by_cases hm : model_type = "whisper".toList
  · by_cases hd : (29 : ℚ) < (num_samples : ℚ) / (sample_rate : ℚ)
    · simp [transcribeBranch, use_vad, hm, hd]
    · simp [transcribeBranch, use_vad, hm, hd]
  · simp [transcribeBranch, use_vad, hm]

/-- The feed/flush schedule of the VAD first pass of `transcribe_with_vad_`
(`src/vad.cpp`, lines 79-112), with the cursor `i`, window `w` and total
sample count `n` of the source loop:

```
while (!is_eof) {
  if (i + vad_window_size < samples_vec.size())
    AcceptWaveform(vad, samples + i, vad_window_size);
  else { Flush(vad); is_eof = 1; }
  <drain all available segments>
  i += vad_window_size;
}
```

The result is the list of cursor positions at which a full `w`-sample
window is fed, and the cursor position at which the single flush is issued
(the drain runs after every feed and after the flush, and the loop stops
right after the flush).  The `fuel` argument only bounds the number of
iterations so the recursion is structural; `n + 1` iterations always
suffice because every iteration advances the cursor by `w ≥ 1`. -/
def vadGo (w : ℕ) : ℕ → ℕ → ℕ → List ℕ × ℕ
  | 0, i, _ => ([], i)
  | f + 1, i, n =>
    if i + w < n then
      ((i :: (vadGo w f (i + w) n).1), (vadGo w f (i + w) n).2)
    else
      ([], i)

/-- The complete feed/flush schedule of the VAD loop over an `n`-sample
waveform with window `w`: feed cursors in order, then the flush cursor. -/
def vadSchedule (w n : ℕ) : List ℕ × ℕ :=
  vadGo w (n + 1) 0 n

/-- Any sufficiently large fuel computes the same schedule. -/
lemma vadGo_fuel (w : ℕ) (hw : 0 < w) :
    ∀ (f g i n : ℕ), n - i < f → n - i < g →
      vadGo w f i n = vadGo w g i n := by
  intro f
  induction f with
  | zero => intro g i n h1 _; exact absurd h1 (Nat.not_lt_zero _)
  | succ f ih =>
    intro g i n h1 h2
    cases g with
    | zero => exact absurd h2 (Nat.not_lt_zero _)
    | succ g =>
      by_cases h : i + w < n
      · have hrec := ih g (i + w) n (by omega) (by omega)
        simp only [vadGo, if_pos h, hrec]
      · simp only [vadGo, if_neg h]

/-- Invariant of the feed loop: with enough fuel, every fed window lies
strictly inside the waveform, the feeds advance in exact `w`-sample strides
from the starting cursor, the flush cursor sits right after the last feed,
and at the flush cursor at most `w` samples remain. -/
lemma vadGo_spec (w : ℕ) (hw : 0 < w) :
    ∀ (f i n : ℕ), n - i < f →
      (∀ j ∈ (vadGo w f i n).1, j + w < n)
      ∧ (vadGo w f i n).2 = i + w * (vadGo w f i n).1.length
      ∧ n - (vadGo w f i n).2 ≤ w
      ∧ (vadGo w f i n).1 =
          (List.range (vadGo w f i n).1.length).map (fun k => i + k * w) := by
  intro f
  induction f with
  | zero => intro i n h1; exact absurd h1 (Nat.not_lt_zero _)
  | succ f ih =>
    intro i n h1
    by_cases h : i + w < n
    · obtain ⟨ha, hb, hc, hd⟩ := ih (i + w) n (by omega)
      have e : vadGo w (f + 1) i n =
          ((i :: (vadGo w f (i + w) n).1), (vadGo w f (i + w) n).2) := by
        simp only [vadGo, if_pos h]
      rw [e]
      refine ⟨?_, ?_, hc, ?_⟩
      · intro j hj
        rcases List.mem_cons.mp hj with rfl | hj
        · exact h
        · exact ha j hj
      · simp only [List.length_cons]
        rw [hb]
        ring
      · simp only [List.length_cons, List.range_succ_eq_map, List.map_cons,
          List.map_map]
        congr 1
        · ring
        · rw [hd]
          simp only [List.length_map, List.length_range]
          apply List.map_congr_left
          intro k _
          simp only [Function.comp_apply, Nat.succ_eq_add_one]
          ring
    · have e : vadGo w (f + 1) i n = ([], i) := by
        simp only [vadGo, if_neg h]
      rw [e]
      refine ⟨by simp, by simp, by omega, by simp⟩

/-- Counterexample to claim C9 as stated: on a waveform of exactly
`window_size` samples (`w = 2`, `n = 2`) the loop issues the flush
immediately, with `2` samples — not fewer than `window_size` — remaining
past the cursor, and the one available full window is never fed: the code
flushes whenever `i + window_size < n` fails, i.e. also when exactly
`window_size` samples remain. -/
theorem vad_flush_with_full_window_remaining :
    vadSchedule 2 2 = ([], 0)
    ∧ ¬(2 - (vadSchedule 2 2).2 < 2) := by
  constructor <;> decide

/-- Claim C9, amended.  The detector adapter feeds windows of exactly
`window_size` samples at cursors `0, w, 2w, ...`, each lying strictly
inside the waveform (never a partial-window feed), and issues the single
flush — after which it drains and stops — at the cursor right after the
last feed, exactly when at most `window_size` samples remain past the
cursor (not "fewer than": a remainder of exactly `window_size` samples is
also flushed rather than fed). -/
theorem vad_feed_full_windows_then_flush (w n : ℕ) (hw : 0 < w) :
    (∀ j ∈ (vadSchedule w n).1, j + w < n)
    ∧ (vadSchedule w n).1 =
        (List.range (vadSchedule w n).1.length).map (fun k => k * w)
    ∧ (vadSchedule w n).2 = w * (vadSchedule w n).1.length
    ∧ n - (vadSchedule w n).2 ≤ w := by
  obtain ⟨ha, hb, hc, hd⟩ := vadGo_spec w hw (n + 1) 0 n (by omega)
  have hs : vadSchedule w n = vadGo w (n + 1) 0 n := rfl
  rw [hs]
  refine ⟨ha, ?_, by simpa using hb, hc⟩
  conv_lhs => rw [hd]
  apply List.map_congr_left
  intro k _
  simp

/-- Witness for `vad_feed_full_windows_then_flush` at `w = 2`, `n = 5`:
windows are fed at cursors 0 and 2, the flush happens at cursor 4, and one
sample (at most `w`) remains unprocessed at the flush. -/
theorem vad_feed_full_windows_then_flush_witness :
    (∀ j ∈ (vadSchedule 2 5).1, j + 2 < 5)
    ∧ (vadSchedule 2 5).1 =
        (List.range (vadSchedule 2 5).1.length).map (fun k => k * 2)
    ∧ (vadSchedule 2 5).2 = 2 * (vadSchedule 2 5).1.length
    ∧ 5 - (vadSchedule 2 5).2 ≤ 2 :=
  vad_feed_full_windows_then_flush 2 5 (by decide)

/-- The `vad()` result consumed by `transcribe_with_vad`
(`R/recognizer.R`, lines 74-98): detected segments, their count, and the
audio sample rate. -/
structure VadResult where
  segments : List Seg
  num_segments : ℕ
  sample_rate : ℕ
deriving DecidableEq

/-- The transcription result list built by `transcribe_with_vad`
(`R/recognizer.R`, lines 86-94 and 131-137): combined text, per-batch
texts, start times, durations, and the batch count reported as
`num_segments`. -/
structure Transcription where
  text : List Char
  segments : List (List Char)
  segment_starts : List ℚ
  segment_durations : List ℚ
  num_segments : ℕ
deriving DecidableEq

/-- Instrumentation of the calls `transcribe_with_vad` makes after VAD:
one `batch` event when `batch_segments` is invoked on the detected
segments, and one `recognize` event per batch handed to
`transcribe_samples_`. -/
inductive PipelineCall
  | batch (segs : List Seg)
  | recognize (samples : List ℚ)
deriving DecidableEq

/-- `transcribe_with_vad` (`R/recognizer.R`, lines 73-140) after the `vad()`
call, with the opaque recognizer modelled as an oracle from batch samples
to the decoded text: when `vad_result$num_segments == 0` it returns the
empty transcription immediately; otherwise it batches the segments with
maximum 29.0, transcribes each batch in order, and assembles texts, start
times, durations and the batch count.  The second component records, in
order, the batcher invocation and every recognizer invocation. -/
def transcribe_with_vad (recognize : List ℚ → List Char)
    (vr : VadResult) : Transcription × List PipelineCall :=
  if vr.num_segments = 0 then
    (⟨[], [], [], [], 0⟩, [])
  else
    (⟨combineTexts ((batch_segments 29 vr.segments).map
          (fun b => recognize b.samples)),
      (batch_segments 29 vr.segments).map (fun b => recognize b.samples),
      (batch_segments 29 vr.segments).map Batch.start_time,
      (batch_segments 29 vr.segments).map Batch.duration,
      (batch_segments 29 vr.segments).length⟩,
     PipelineCall.batch vr.segments ::
       (batch_segments 29 vr.segments).map
         (fun b => PipelineCall.recognize b.samples))

/-- Claim C10.  When VAD detects zero speech segments,
`transcribe_with_vad` returns a transcription with empty text, empty
`segments`, `segment_starts` and `segment_durations` vectors and
`num_segments = 0`, and it does so without invoking the batcher or the
recognizer at all (the recorded call list is empty, for every recognizer
oracle). -/
theorem no_speech_returns_empty_without_calls
    (recognize : List ℚ → List Char) (vr : VadResult)
    (h : vr.num_segments = 0) :
    transcribe_with_vad recognize vr = (⟨[], [], [], [], 0⟩, []) := by
  simp [transcribe_with_vad, h]

/-- Witness for `no_speech_returns_empty_without_calls`: a VAD result with
no segments at 16 kHz, under an oracle that would return `"x"` for any
batch, yields the empty transcription and no batcher/recognizer calls. -/
theorem no_speech_returns_empty_without_calls_witness :
    transcribe_with_vad (fun _ => "x".toList) ⟨[], 0, 16000⟩ =
      (⟨[], [], [], [], 0⟩, []) :=
  no_speech_returns_empty_without_calls (fun _ => "x".toList)
    ⟨[], 0, 16000⟩ rfl
